import Mathlib

/-!
Verification of the magnet health-probing subsystem of the Ghost repository
(`packages/worker/dht/scan.py` and `packages/worker/dht/libtorrent_checker.py`,
with the persistence layer from `packages/db/models.py`).

The Python code is shallowly embedded as pure Lean functions:
* the SQLite store becomes an explicit `DB` state (a list of resource rows and
  an optional singleton build-state row) threaded through the operations;
* `datetime.now(timezone.utc)` becomes an explicit `now : Time` argument;
* SQL `order by random() limit n` becomes an arbitrary reordering function
  (`shuffle`) that is assumed to permute its input;
* the libtorrent polling loop is embedded over an explicit trace of poll
  samples: the list holds the successive `(num_peers, has_metadata)`
  observations the wall-clock loop would make before `timeout_s` elapses, so
  the end of the list is exactly the timeout;
* exceptions become `Except` values; the orchestrator additionally records,
  in a `ScanOutcome`, which per-magnet checks were performed, whether the
  checker factory was invoked, and the exact argument handed to the result
  applier, so that call/no-call facts of the source are provable.
-/

namespace Ghost

/-- `DhtStatus = Literal["Active", "Stale", "Unknown"]` from `scan.py`. -/
inductive DhtStatus
  | Active
  | Stale
  | Unknown
deriving DecidableEq, Repr

/-- The frozen dataclass `MagnetProbe` from `scan.py`. -/
structure MagnetProbe where
  status : DhtStatus
  num_peers : Int := 0
  has_metadata : Bool := false
  error : Option String := none
deriving DecidableEq, Repr

/-! ## Swarm prober (`libtorrent_checker.py`) -/

/-- One observation of `handle.status()` / `handle.has_metadata()` inside the
polling loop of `LibtorrentMagnetChecker.check`:
`num_peers` is `int(getattr(status, "num_peers", 0) or 0)` and
`has_metadata` is `bool(handle.has_metadata())`. -/
structure PollSample where
  num_peers : Int
  has_metadata : Bool
deriving DecidableEq, Repr

/-- The frozen dataclass `_ProbeAccum` from `libtorrent_checker.py`. -/
structure ProbeAccum where
  max_peers : Int := 0
  got_metadata : Bool := false
deriving DecidableEq, Repr

/-- One iteration body of the `while` loop in `LibtorrentMagnetChecker.check`:
`acc = _ProbeAccum(max_peers=max(acc.max_peers, peers), got_metadata=acc.got_metadata or meta)`. -/
def checkStep (acc : ProbeAccum) (s : PollSample) : ProbeAccum :=
  { max_peers := max acc.max_peers s.num_peers
    got_metadata := acc.got_metadata || s.has_metadata }

/-- The `while (time.monotonic() - start) < timeout_s` loop of
`LibtorrentMagnetChecker.check`, run over the trace of poll samples the loop
would observe before the timeout; the loop breaks as soon as the accumulator
has metadata, and the end of the trace is the elapse of the timeout. -/
def checkLoop : ProbeAccum → List PollSample → ProbeAccum
  | acc, [] => acc
  | acc, s :: rest =>
    let acc' := checkStep acc s
    if acc'.got_metadata then acc' else checkLoop acc' rest

namespace LibtorrentMagnetChecker

/-- `LibtorrentMagnetChecker.check` from `libtorrent_checker.py`, embedded over
the poll trace `polls`: run the polling loop, then
`Active` with the accumulated high-water peer count if
`acc.got_metadata or acc.max_peers > 0`, otherwise `Stale`. -/
def check (polls : List PollSample) : MagnetProbe :=
  let acc := checkLoop {} polls
  if acc.got_metadata || acc.max_peers > 0 then
    { status := .Active, num_peers := acc.max_peers, has_metadata := acc.got_metadata }
  else
    { status := .Stale, num_peers := 0, has_metadata := false }

end LibtorrentMagnetChecker

/-- The polls the loop actually performs: every sample up to and including the
first one carrying metadata (the loop breaks there), or the whole trace when
none carries metadata (the loop then runs until the timeout). -/
def processedPolls : List PollSample → List PollSample
  | [] => []
  | s :: rest => if s.has_metadata then [s] else s :: processedPolls rest

/-- High-water mark of peer counts over a list of polls. -/
def maxPeersOf (polls : List PollSample) : Int :=
  polls.foldl (fun m s => max m s.num_peers) 0

/-! ## Persistent store (`packages/db/models.py`), restricted to the fields the
probing subsystem reads or writes -/

/-- Timestamps; only equality/"is set" matters to the claims. -/
abbrev Time := Nat

/-- The `Resource` row of `models.py`, restricted to the columns used by
`scan.py`: `id`, `magnet_uri`, `magnet_hash`, `dht_status`, `last_dht_check`,
`takedown_at`. -/
structure ResourceRow where
  id : Nat
  magnet_uri : String
  magnet_hash : String
  dht_status : DhtStatus := .Unknown
  last_dht_check : Option Time := none
  takedown_at : Option Time := none
deriving DecidableEq, Repr

/-- The `BuildState` row of `models.py`, restricted to the fields `scan.py`
touches (`pending_changes`, `pending_reason`); defaults as in the model
(`pending_changes=False`, `pending_reason` nullable). -/
structure BuildStateRow where
  pending_changes : Bool := false
  pending_reason : Option String := none
deriving DecidableEq, Repr

/-- The database state seen by the probing subsystem: the resource table and
the optional singleton `build_state` row (absent until first ensured). -/
structure DB where
  resources : List ResourceRow
  build_state : Option BuildStateRow := none
deriving DecidableEq, Repr

/-- `ensure_build_state` from `models.py`: return the singleton row, creating
it with `pending_changes=False` when absent. -/
def ensure_build_state (db : DB) : BuildStateRow × DB :=
  match db.build_state with
  | some s => (s, db)
  | none =>
    let s : BuildStateRow := {}
    (s, { db with build_state := some s })

/-! ## Result applier (`_apply_results` in `scan.py`) -/

/-- One iteration of the `for resource_id, new_status in results` loop of
`_apply_results`: `session.get(Resource, resource_id)` (lookup by primary
key), skip silently when absent, otherwise set `dht_status := new_status` and
`last_dht_check := now`; the returned number is the increment of `changed`
(1 when the previous status differs from the new one, else 0). -/
def applyOne (now : Time) (rid : Nat) (st : DhtStatus) :
    List ResourceRow → List ResourceRow × Nat
  | [] => ([], 0)
  | r :: rest =>
    if r.id = rid then
      ({ r with dht_status := st, last_dht_check := some now } :: rest,
        if r.dht_status ≠ st then 1 else 0)
    else
      let rec1 := applyOne now rid st rest
      (r :: rec1.1, rec1.2)

/-- `_apply_results` from `scan.py`, with the ambient clock
`datetime.now(timezone.utc)` passed in as `now`: within one transaction,
ensure the build-state singleton, apply every result in order, count status
changes, and set `pending_changes`/`pending_reason` only when
`changed` is non-zero. Returns the updated store and `changed`. -/
def _apply_results (now : Time) (db : DB) (results : List (Nat × DhtStatus)) :
    DB × Nat :=
  let ens := ensure_build_state db
  let step := fun (acc : List ResourceRow × Nat) (r : Nat × DhtStatus) =>
    let one := applyOne now r.1 r.2 acc.1
    (one.1, acc.2 + one.2)
  let folded := results.foldl step (ens.2.resources, 0)
  let changed := folded.2
  let state' :=
    if changed ≠ 0 then
      { ens.1 with pending_changes := true, pending_reason := some "DHT status updated" }
    else
      ens.1
  ({ resources := folded.1, build_state := some state' }, changed)

/-- Primary-key lookup in the resource table (`session.get(Resource, rid)`):
the first row with the given id, if any. -/
def findRow : List ResourceRow → Nat → Option ResourceRow
  | [], _ => none
  | r :: rest, rid => if r.id = rid then some r else findRow rest rid

/-- The per-result loop of `_apply_results`, recursively: apply the head
result, then the rest on the updated table, summing the change counts.  Used
to reason about the `foldl` in `_apply_results` (they are proved equal in
`apply_foldl_eq`). -/
def applyList (now : Time) : List ResourceRow → List (Nat × DhtStatus) → List ResourceRow × Nat
  | rs, [] => (rs, 0)
  | rs, r :: rest =>
    let one := applyOne now r.1 r.2 rs
    let rec1 := applyList now one.1 rest
    (rec1.1, one.2 + rec1.2)

/-- Whether one result would be counted as a change against the table `rs`:
its resource exists and its current status differs from the new one. -/
def changedPred (rs : List ResourceRow) (x : Nat × DhtStatus) : Bool :=
  match findRow rs x.1 with
  | some r => decide (¬ r.dht_status = x.2)
  | none => false

/-! ## Sample selector (`_pick_resources` in `scan.py`) -/

/-- The row tuple `(r.id, r.magnet_uri, r.magnet_hash, r.dht_status)` returned
by `_pick_resources`. -/
abbrev PickedRow := Nat × String × String × DhtStatus

/-- `_pick_resources` from `scan.py`: filter out taken-down resources
(`takedown_at.is_(None)`); with `limit = none` order by ascending id
(`order_by(Resource.id.asc())`); with `limit = some n` reorder randomly and
keep at most `n` rows (`order_by(func.random()).limit(limit)`), the SQL
shuffle being modelled by the reordering function `shuffle`. -/
def _pick_resources (shuffle : List ResourceRow → List ResourceRow)
    (db : DB) (limit : Option Nat) : List PickedRow :=
  let q : List ResourceRow := db.resources.filter (fun r => r.takedown_at = none)
  let rows : List ResourceRow :=
    match limit with
    | none => q.insertionSort (fun a b => a.id ≤ b.id)
    | some n => (shuffle q).take n
  rows.map (fun r => (r.id, r.magnet_uri, r.magnet_hash, r.dht_status))

/-! ## Scan orchestrator (`_run_scan_sync` in `scan.py`) -/

/-- The checker object produced by a successful `checker_factory()`:
`check magnet_uri timeout_s` either returns a `MagnetProbe` or raises
(`Except.error`).  `close` is pure teardown with no observable effect on the
store and is not modelled. -/
structure CheckerModel where
  check : String → Nat → Except String MagnetProbe

/-- The observable outcome of one `_run_scan_sync` call.  Besides the returned
count (`ret`) and the updated store (`db`), it records the ghost facts needed
by the claims: whether `checker_factory()` was invoked, the resource ids for
which `checker.check` was invoked (in invocation order), and the exact results
list passed to `_apply_results` together with the count that call returned
(`none` when `_apply_results` was not invoked). -/
structure ScanOutcome where
  factoryInvoked : Bool
  probed : List Nat
  applied : Option (List (Nat × DhtStatus))
  applyChanged : Option Nat
  db : DB
  ret : Nat
deriving DecidableEq, Repr

/-- `_run_scan_sync` from `scan.py`:
pick the resources; when none, return 0 at once; then invoke the factory —
when it raises, apply `Unknown` for every picked resource and return the
literal 0; otherwise probe the picked resources in order, degrading a
per-item exception to `Unknown`, and return what `_apply_results` returns. -/
def _run_scan_sync (shuffle : List ResourceRow → List ResourceRow)
    (now : Time) (db : DB) (limit : Option Nat) (timeout_s : Nat)
    (checker_factory : Except String CheckerModel) : ScanOutcome :=
  let resources := _pick_resources shuffle db limit
  if resources.isEmpty then
    { factoryInvoked := false, probed := [], applied := none,
      applyChanged := none, db := db, ret := 0 }
  else
    match checker_factory with
    | .error _ =>
      let results := resources.map (fun r => (r.1, DhtStatus.Unknown))
      let app := _apply_results now db results
      { factoryInvoked := true, probed := [], applied := some results,
        applyChanged := some app.2, db := app.1, ret := 0 }
    | .ok checker =>
      let results := resources.map (fun r =>
        match checker.check r.2.1 timeout_s with
        | .ok probe => (r.1, probe.status)
        | .error _ => (r.1, DhtStatus.Unknown))
      let app := _apply_results now db results
      { factoryInvoked := true, probed := resources.map (fun r => r.1),
        applied := some results, applyChanged := some app.2,
        db := app.1, ret := app.2 }

/-! ## Public entry points (`run_dht_health_scan`, `run_dht_health_scan_all`) -/

/-- The environment variables read by the entry points, already parsed by
`int(...)`: `none` models an unset variable. -/
structure Env where
  sampleSize : Option Int := none
  timeoutS : Option Int := none
deriving DecidableEq, Repr

/-- Python's `given or int(os.getenv(var, "20"))` with `given : int | None`:
both `None` and `0` are falsy, so they fall back to the parsed environment
value, itself defaulting to 20. -/
def resolveOrDefault (given : Option Int) (envVal : Option Int) : Int :=
  match given with
  | none => envVal.getD 20
  | some v => if v = 0 then envVal.getD 20 else v

/-- Argument resolution of `run_dht_health_scan`:
`sample_size = sample_size or int(os.getenv("GHOST_DHT_SAMPLE_SIZE", "20"))`
and `timeout_s = timeout_s or int(os.getenv("GHOST_DHT_TIMEOUT_S", "20"))`. -/
def run_dht_health_scan_args (sample_size timeout_s : Option Int) (env : Env) :
    Int × Int :=
  (resolveOrDefault sample_size env.sampleSize,
   resolveOrDefault timeout_s env.timeoutS)

/-- `run_dht_health_scan` from `scan.py` after argument resolution: a sampled
scan is just `_run_scan_sync` with `limit = sample_size`, whose result is
returned to the caller unchanged. -/
def run_dht_health_scan (shuffle : List ResourceRow → List ResourceRow)
    (now : Time) (db : DB) (sample_size timeout_s : Nat)
    (checker_factory : Except String CheckerModel) : ScanOutcome :=
  _run_scan_sync shuffle now db (some sample_size) timeout_s checker_factory

/-- `run_dht_health_scan_all` from `scan.py` after argument resolution: under
the full-scan lock, `_run_scan_sync` with `limit = None`, whose result is
returned to the caller unchanged. -/
def run_dht_health_scan_all (shuffle : List ResourceRow → List ResourceRow)
    (now : Time) (db : DB) (timeout_s : Nat)
    (checker_factory : Except String CheckerModel) : ScanOutcome :=
  _run_scan_sync shuffle now db none timeout_s checker_factory

/-! ## Concurrency gate (`_SCAN_ALL_LOCK` in `scan.py`)

`run_dht_health_scan_all` wraps its whole body — the `asyncio.to_thread`
call running `_run_scan_sync` (selection, probing and apply) — in
`async with _SCAN_ALL_LOCK`, a single module-level `asyncio.Lock`.  The lock
discipline is embedded as a step relation on the multiset of phases of the
in-flight full-scan invocations: an invocation is `idle` before it runs,
`waiting` while blocked in the lock's acquire queue, `scanning` while it holds
the lock and executes `_run_scan_sync`, and `finished` after release.
`asyncio.Lock.acquire` blocks until the lock is free (it has no failure or
rejection path), which is the side condition of the `acquire` step. -/

/-- Phase of one `run_dht_health_scan_all` invocation with respect to
`_SCAN_ALL_LOCK`. -/
inductive FullScanPhase
  | idle
  | waiting
  | scanning
  | finished
deriving DecidableEq, Repr

/-- The multiset of phases of the in-flight full-scan invocations. -/
abbrev GateState := Multiset FullScanPhase

/-- One scheduler step of the full-scan gate: an invocation starts and joins
the lock queue (`request`), a queued invocation acquires the lock — only when
no other invocation holds it — and runs the scan inside the `async with`
block (`acquire`), or the lock holder finishes the scan and releases the lock
(`release`).  There is no step that drops or rejects a waiting invocation. -/
inductive GateStep : GateState → GateState → Prop
  | request (rest : GateState) :
      GateStep (FullScanPhase.idle ::ₘ rest) (FullScanPhase.waiting ::ₘ rest)
  | acquire (rest : GateState) (hfree : FullScanPhase.scanning ∉ rest) :
      GateStep (FullScanPhase.waiting ::ₘ rest) (FullScanPhase.scanning ::ₘ rest)
  | release (rest : GateState) :
      GateStep (FullScanPhase.scanning ::ₘ rest) (FullScanPhase.finished ::ₘ rest)

/-- States reachable from `n` not-yet-started full-scan invocations. -/
def GateReachable (n : Nat) (s : GateState) : Prop :=
  Relation.ReflTransGen GateStep (Multiset.replicate n FullScanPhase.idle) s

/-! ## Derived views and concrete fixtures -/

/-- The eligible resources of a scan as row tuples: every resource with no
takedown marker, in table order. -/
def eligibleRows (db : DB) : List PickedRow :=
  (db.resources.filter (fun r => r.takedown_at = none)).map
    (fun r => (r.id, r.magnet_uri, r.magnet_hash, r.dht_status))

instance : IsTotal ResourceRow (fun a b => a.id ≤ b.id) :=
  ⟨fun a b => Nat.le_total a.id b.id⟩

instance : IsTrans ResourceRow (fun a b => a.id ≤ b.id) :=
  ⟨fun _ _ _ h h' => Nat.le_trans h h'⟩

/-- A concrete resource row used by the closed witness instances. -/
def rowW : ResourceRow :=
  { id := 1, magnet_uri := "magnet:?xt=urn:btih:aaaa", magnet_hash := "aaaa" }

/-- A concrete one-resource store used by the closed witness instances. -/
def dbW : DB := { resources := [rowW] }

/-- A concrete resource row that is currently Active, so that degrading it to
Unknown is a genuine status change. -/
def rowA : ResourceRow :=
  { id := 1, magnet_uri := "magnet:?xt=urn:btih:aaaa", magnet_hash := "aaaa",
    dht_status := DhtStatus.Active }

/-- A concrete store whose single resource is Active. -/
def dbA : DB := { resources := [rowA] }

/-- A concrete always-Active checker used by the closed witness instances. -/
def checkerW : CheckerModel :=
  ⟨fun _ _ => Except.ok { status := DhtStatus.Active }⟩

/-! # Theorems -/

/-! ## Swarm prober lemmas -/

theorem checkStep_got (acc : ProbeAccum) (s : PollSample) :
    (checkStep acc s).got_metadata = (acc.got_metadata || s.has_metadata) := rfl

theorem checkLoop_eq_foldl (polls : List PollSample) :
    ∀ acc : ProbeAccum, acc.got_metadata = false →
      checkLoop acc polls = (processedPolls polls).foldl checkStep acc := by
  induction polls with
  | nil => intro acc _; rfl
  | cons s rest ih =>
    intro acc hacc
    by_cases hs : s.has_metadata
    · simp [checkLoop, processedPolls, checkStep_got, hacc, hs]
    · simp only [checkLoop, processedPolls, hs, if_neg, Bool.false_eq_true,
        not_false_iff]
      have h' : (checkStep acc s).got_metadata = false := by
        simp [checkStep_got, hacc, hs]
      simp only [h', Bool.false_eq_true, if_false, List.foldl_cons]
      exact ih (checkStep acc s) h'

theorem foldl_checkStep_max (polls : List PollSample) :
    ∀ acc : ProbeAccum,
      (polls.foldl checkStep acc).max_peers =
        polls.foldl (fun m s => max m s.num_peers) acc.max_peers := by
  induction polls with
  | nil => intro acc; rfl
  | cons s rest ih => intro acc; simpa using ih (checkStep acc s)

theorem foldl_checkStep_meta (polls : List PollSample) :
    ∀ acc : ProbeAccum,
      (polls.foldl checkStep acc).got_metadata =
        (acc.got_metadata || polls.any (fun s => s.has_metadata)) := by
  induction polls with
  | nil => intro acc; simp
  | cons s rest ih =>
    intro acc
    simp only [List.foldl_cons, ih (checkStep acc s), checkStep_got, List.any_cons]
    cases acc.got_metadata <;> cases s.has_metadata <;> simp

theorem processedPolls_prefix (polls : List PollSample) :
    processedPolls polls <+: polls := by
  induction polls with
  | nil => exact List.prefix_rfl
  | cons s rest ih =>
    by_cases hs : s.has_metadata
    · refine ⟨rest, ?_⟩
      simp [processedPolls, hs]
    · obtain ⟨t, ht⟩ := ih
      refine ⟨t, ?_⟩
      simp [processedPolls, hs, ht]

theorem processedPolls_dropLast_no_meta (polls : List PollSample) :
    ∀ s ∈ (processedPolls polls).dropLast, s.has_metadata = false := by
  induction polls with
  | nil => intro s hs; simp [processedPolls] at hs
  | cons p rest ih =>
    intro s hs
    by_cases hp : p.has_metadata
    · simp [processedPolls, hp] at hs
    · simp only [processedPolls, hp, Bool.false_eq_true, if_false] at hs
      cases hrest : processedPolls rest with
      | nil => rw [hrest] at hs; simp at hs
      | cons q t =>
        rw [hrest, List.dropLast_cons₂] at hs
        rcases List.mem_cons.mp hs with h | h
        · have hp' : p.has_metadata = false := by simpa using hp
          exact h ▸ hp'
        · exact ih s (hrest ▸ h)

theorem processedPolls_no_meta (polls : List PollSample)
    (h : ∀ s ∈ polls, s.has_metadata = false) : processedPolls polls = polls := by
  induction polls with
  | nil => rfl
  | cons s rest ih =>
    have hs := h s (List.mem_cons_self s rest)
    simp [processedPolls, hs, ih (fun t ht => h t (List.mem_cons_of_mem s ht))]

/-- C2: a single-magnet probe that completes without raising is `Active` iff
full metadata was observed at some performed poll or the high-water mark of
the peer counts over the performed polls is positive, and `Stale` otherwise;
and the loop performs exactly the polls up to the first one with metadata
(stopping there), running through the whole trace — i.e. until the timeout —
only when no poll yields metadata. -/
theorem C2_swarm_prober_verdict (polls : List PollSample) :
    let probe := LibtorrentMagnetChecker.check polls
    let processed := processedPolls polls
    (probe.status = DhtStatus.Active ↔
      (∃ s ∈ processed, s.has_metadata = true) ∨ 0 < maxPeersOf processed) ∧
    (probe.status = DhtStatus.Active ∨ probe.status = DhtStatus.Stale) ∧
    checkLoop {} polls = processed.foldl checkStep {} ∧
    processed <+: polls ∧
    (∀ s ∈ processed.dropLast, s.has_metadata = false) ∧
    ((∀ s ∈ polls, s.has_metadata = false) → processed = polls) := by
  intro probe processed
  have hloop : checkLoop {} polls = processed.foldl checkStep {} :=
    checkLoop_eq_foldl polls {} rfl
  have hgot : (processed.foldl checkStep ({} : ProbeAccum)).got_metadata
      = processed.any (fun s => s.has_metadata) := by
    simpa using foldl_checkStep_meta processed {}
  have hmax : (processed.foldl checkStep ({} : ProbeAccum)).max_peers
      = maxPeersOf processed := by
    simpa [maxPeersOf] using foldl_checkStep_max processed {}
  refine ⟨?_, ?_, hloop, processedPolls_prefix polls,
    processedPolls_dropLast_no_meta polls, processedPolls_no_meta polls⟩
  · show (LibtorrentMagnetChecker.check polls).status = DhtStatus.Active ↔ _
    simp only [LibtorrentMagnetChecker.check, hloop, hgot, hmax]
    split
    · rename_i h
      simp only [true_iff]
      simpa [List.any_eq_true] using h
    · rename_i h
      constructor
      · intro hst; exact absurd hst (by simp)
      · intro hc
        exact absurd (by simpa [List.any_eq_true] using hc) h
  · show (LibtorrentMagnetChecker.check polls).status = DhtStatus.Active ∨
      (LibtorrentMagnetChecker.check polls).status = DhtStatus.Stale
    simp only [LibtorrentMagnetChecker.check]
    split <;> simp

/-! ## Result applier lemmas -/

theorem applyOne_ids (now : Time) (rid : Nat) (st : DhtStatus) :
    ∀ rs : List ResourceRow,
      (applyOne now rid st rs).1.map (fun r => r.id) = rs.map (fun r => r.id) := by
  intro rs
  induction rs with
  | nil => rfl
  | cons r rest ih =>
    by_cases h : r.id = rid
    · simp [applyOne, h]
    · simp [applyOne, h, ih]

theorem applyOne_count (now : Time) (rid : Nat) (st : DhtStatus) :
    ∀ rs : List ResourceRow,
      (applyOne now rid st rs).2 = if changedPred rs (rid, st) then 1 else 0 := by
  intro rs
  induction rs with
  | nil => rfl
  | cons r rest ih =>
    by_cases h : r.id = rid
    · simp [applyOne, h, changedPred, findRow]
    · simp [applyOne, h, changedPred, findRow, ih]

theorem applyOne_findRow_self (now : Time) (rid : Nat) (st : DhtStatus) :
    ∀ rs : List ResourceRow,
      findRow (applyOne now rid st rs).1 rid =
        (findRow rs rid).map
          (fun r => { r with dht_status := st, last_dht_check := some now }) := by
  intro rs
  induction rs with
  | nil => rfl
  | cons r rest ih =>
    by_cases h : r.id = rid
    · simp [applyOne, h, findRow]
    · simp [applyOne, h, findRow, ih]

theorem applyOne_findRow_other (now : Time) (rid : Nat) (st : DhtStatus)
    (rid' : Nat) (h : rid' ≠ rid) :
    ∀ rs : List ResourceRow,
      findRow (applyOne now rid st rs).1 rid' = findRow rs rid' := by
  intro rs
  induction rs with
  | nil => rfl
  | cons r rest ih =>
    by_cases hc : r.id = rid
    · have hr : ¬ r.id = rid' := fun hh => h (hh ▸ hc)
      simp [applyOne, hc, findRow, hr, Ne.symm h]
    · by_cases hr : r.id = rid'
      · simp [applyOne, hc, findRow, hr, h]
      · simp [applyOne, hc, findRow, hr, ih]

theorem applyList_ids (now : Time) (results : List (Nat × DhtStatus)) :
    ∀ rs : List ResourceRow,
      (applyList now rs results).1.map (fun r => r.id) = rs.map (fun r => r.id) := by
  induction results with
  | nil => intro rs; rfl
  | cons y rest ih =>
    intro rs
    simp only [applyList]
    rw [ih, applyOne_ids]

theorem findRow_eq_none_iff (rid : Nat) :
    ∀ rs : List ResourceRow,
      findRow rs rid = none ↔ rid ∉ rs.map (fun r => r.id) := by
  intro rs
  induction rs with
  | nil => simp [findRow]
  | cons r rest ih =>
    by_cases h : r.id = rid
    · simp [findRow, h]
    · simp only [findRow, h, if_false, List.map_cons, List.mem_cons, ih]
      constructor
      · intro hn hc
        rcases hc with hc | hc
        · exact h hc.symm
        · exact hn hc
      · intro hn
        exact fun hc => hn (Or.inr hc)

theorem applyList_frame (now : Time) (results : List (Nat × DhtStatus)) :
    ∀ (rs : List ResourceRow) (rid : Nat),
      rid ∉ results.map (fun r => r.1) →
      findRow (applyList now rs results).1 rid = findRow rs rid := by
  induction results with
  | nil => intro rs rid _; rfl
  | cons y rest ih =>
    intro rs rid hmem
    simp only [List.map_cons, List.mem_cons] at hmem
    push_neg at hmem
    simp only [applyList]
    rw [ih _ rid hmem.2, applyOne_findRow_other now y.1 y.2 rid hmem.1]

theorem applyList_found (now : Time) (results : List (Nat × DhtStatus)) :
    ∀ rs : List ResourceRow, (results.map (fun r => r.1)).Nodup →
      ∀ x ∈ results,
        findRow (applyList now rs results).1 x.1 =
          (findRow rs x.1).map
            (fun r => { r with dht_status := x.2, last_dht_check := some now }) := by
  induction results with
  | nil => intro rs _ x hx; simp at hx
  | cons y rest ih =>
    intro rs hnd x hx
    simp only [List.map_cons, List.nodup_cons] at hnd
    rcases List.mem_cons.mp hx with hxy | hxr
    · subst hxy
      simp only [applyList]
      rw [applyList_frame now rest _ x.1 hnd.1, applyOne_findRow_self]
    · have hne : x.1 ≠ y.1 := by
        intro hh
        exact hnd.1 (hh ▸ List.mem_map.mpr ⟨x, hxr, rfl⟩)
      simp only [applyList]
      rw [ih _ hnd.2 x hxr, applyOne_findRow_other now y.1 y.2 x.1 hne]

theorem countP_changedPred_congr (results : List (Nat × DhtStatus))
    (rs rs' : List ResourceRow)
    (h : ∀ x ∈ results, findRow rs' x.1 = findRow rs x.1) :
    results.countP (changedPred rs') = results.countP (changedPred rs) := by
  induction results with
  | nil => rfl
  | cons y rest ih =>
    simp only [List.countP_cons]
    rw [ih (fun x hx => h x (List.mem_cons_of_mem y hx))]
    have hy : changedPred rs' y = changedPred rs y := by
      simp [changedPred, h y (List.mem_cons_self y rest)]
    rw [hy]

theorem applyList_count (now : Time) (results : List (Nat × DhtStatus)) :
    ∀ rs : List ResourceRow, (results.map (fun r => r.1)).Nodup →
      (applyList now rs results).2 = results.countP (changedPred rs) := by
  induction results with
  | nil => intro rs _; rfl
  | cons y rest ih =>
    intro rs hnd
    simp only [List.map_cons, List.nodup_cons] at hnd
    simp only [applyList, List.countP_cons]
    rw [ih _ hnd.2, applyOne_count]
    have hcongr : rest.countP (changedPred (applyOne now y.1 y.2 rs).1) =
        rest.countP (changedPred rs) := by
      refine countP_changedPred_congr rest rs _ (fun x hx => ?_)
      have hne : x.1 ≠ y.1 := by
        intro hh
        exact hnd.1 (hh ▸ List.mem_map.mpr ⟨x, hx, rfl⟩)
      exact applyOne_findRow_other now y.1 y.2 x.1 hne rs
    rw [hcongr]
    cases hcp : changedPred rs y <;> simp [hcp, Nat.add_comm]

theorem ensure_build_state_resources (db : DB) :
    (ensure_build_state db).2.resources = db.resources := by
  cases h : db.build_state <;> simp [ensure_build_state, h]

theorem apply_foldl_eq (now : Time) (results : List (Nat × DhtStatus)) :
    ∀ (rs : List ResourceRow) (n : Nat),
      results.foldl (fun acc r =>
        let one := applyOne now r.1 r.2 acc.1
        (one.1, acc.2 + one.2)) (rs, n)
      = ((applyList now rs results).1, n + (applyList now rs results).2) := by
  induction results with
  | nil => intro rs n; simp [applyList]
  | cons y rest ih =>
    intro rs n
    simp only [List.foldl_cons, applyList]
    rw [ih]
    exact congrArg _ (by omega)

theorem _apply_results_eq (now : Time) (db : DB) (results : List (Nat × DhtStatus)) :
    _apply_results now db results =
      ({ resources := (applyList now db.resources results).1,
         build_state := some (
          if (applyList now db.resources results).2 ≠ 0 then
            { (ensure_build_state db).1 with
                pending_changes := true,
                pending_reason := some "DHT status updated" }
          else (ensure_build_state db).1) },
       (applyList now db.resources results).2) := by
  simp only [_apply_results, ensure_build_state_resources, apply_foldl_eq, Nat.zero_add]

/-- C5: the result applier sets each existing resource's status to the new
status and stamps `last_dht_check := now` whether or not the status changed,
skips results whose resource is gone, leaves unmentioned resources alone, and
returns exactly the number of applied results whose previous status differed;
re-applying the same results changes nothing (count 0) while re-stamping the
freshness timestamp. -/
theorem C5_result_applier (now now2 : Time) (db : DB)
    (results : List (Nat × DhtStatus))
    (hnd : (results.map (fun r => r.1)).Nodup) :
    (_apply_results now db results).2 =
      results.countP (changedPred db.resources) ∧
    (∀ x ∈ results, ∀ row, findRow db.resources x.1 = some row →
      findRow (_apply_results now db results).1.resources x.1 =
        some { row with dht_status := x.2, last_dht_check := some now }) ∧
    (∀ x ∈ results, findRow db.resources x.1 = none →
      findRow (_apply_results now db results).1.resources x.1 = none) ∧
    (∀ rid, rid ∉ results.map (fun r => r.1) →
      findRow (_apply_results now db results).1.resources rid =
        findRow db.resources rid) ∧
    (_apply_results now2 (_apply_results now db results).1 results).2 = 0 ∧
    (∀ x ∈ results, ∀ row, findRow db.resources x.1 = some row →
      findRow (_apply_results now2 (_apply_results now db results).1 results).1.resources x.1 =
        some { row with dht_status := x.2, last_dht_check := some now2 }) := by
  have happ := _apply_results_eq now db results
  have h1 : (_apply_results now db results).1.resources =
      (applyList now db.resources results).1 := by rw [happ]
  have h2 : (_apply_results now db results).2 =
      (applyList now db.resources results).2 := by rw [happ]
  have happ2 := _apply_results_eq now2 (_apply_results now db results).1 results
  have h3 : (_apply_results now2 (_apply_results now db results).1 results).2 =
      (applyList now2 (_apply_results now db results).1.resources results).2 := by
    rw [happ2]
  have h4 : (_apply_results now2 (_apply_results now db results).1 results).1.resources =
      (applyList now2 (_apply_results now db results).1.resources results).1 := by
    rw [happ2]
  refine ⟨?_, ?_, ?_, ?_, ?_, ?_⟩
  · rw [h2, applyList_count now results db.resources hnd]
  · intro x hx row hrow
    rw [h1, applyList_found now results db.resources hnd x hx, hrow]
    rfl
  · intro x hx hrow
    rw [h1, applyList_found now results db.resources hnd x hx, hrow]
    rfl
  · intro rid hrid
    rw [h1, applyList_frame now results db.resources rid hrid]
  · rw [h3, applyList_count now2 results _ hnd]
    refine List.countP_eq_zero.mpr (fun x hx => ?_)
    cases hrow : findRow db.resources x.1 with
    | none =>
      have hnone : findRow (_apply_results now db results).1.resources x.1 = none := by
        rw [h1, applyList_found now results db.resources hnd x hx, hrow]
        rfl
      simp [changedPred, hnone]
    | some row =>
      have hsome : findRow (_apply_results now db results).1.resources x.1 =
          some { row with dht_status := x.2, last_dht_check := some now } := by
        rw [h1, applyList_found now results db.resources hnd x hx, hrow]
        rfl
      simp [changedPred, hsome]
  · intro x hx row hrow
    rw [h4, applyList_found now2 results _ hnd x hx, h1,
      applyList_found now results db.resources hnd x hx, hrow]
    rfl

/-- Closed instance of `C5_result_applier`: one resource with status Unknown,
one result setting it Active; the first application counts one change. -/
theorem C5_result_applier_witness :
    (_apply_results 5 dbW [(1, DhtStatus.Active)]).2 =
      [(1, DhtStatus.Active)].countP (changedPred dbW.resources) :=
  (C5_result_applier 5 6 dbW [(1, DhtStatus.Active)] (by decide)).1

/-- C6: after an apply, the build-state singleton exists; when at least one
status changed it carries `pending_changes = true` and
`pending_reason = "DHT status updated"`; when nothing changed it keeps its
prior field values (or the freshly-created defaults when there was no row). -/
theorem C6_pending_flag (now : Time) (db : DB) (results : List (Nat × DhtStatus)) :
    ∃ s : BuildStateRow,
      (_apply_results now db results).1.build_state = some s ∧
      ((_apply_results now db results).2 ≠ 0 →
        s.pending_changes = true ∧ s.pending_reason = some "DHT status updated") ∧
      ((_apply_results now db results).2 = 0 →
        (∀ prior, db.build_state = some prior → s = prior) ∧
        (db.build_state = none →
          s = { pending_changes := false, pending_reason := none })) := by
  have happ := _apply_results_eq now db results
  by_cases hch : (applyList now db.resources results).2 = 0
  · refine ⟨(ensure_build_state db).1, ?_, ?_, ?_⟩
    · rw [happ]; simp [hch]
    · intro hne
      rw [happ] at hne
      exact absurd hch hne
    · intro _
      constructor
      · intro prior hp
        simp [ensure_build_state, hp]
      · intro hp
        simp [ensure_build_state, hp]
  · refine ⟨{ (ensure_build_state db).1 with
        pending_changes := true,
        pending_reason := some "DHT status updated" }, ?_, ?_, ?_⟩
    · rw [happ]; simp [hch]
    · intro _
      exact ⟨rfl, rfl⟩
    · intro hz
      rw [happ] at hz
      exact absurd hz hch

/-! ## Scan orchestrator theorems -/

/-- C8: a scan whose selection comes back empty returns 0 without invoking
the checker factory, probing anything, or applying any results, and leaves
the store untouched. -/
theorem C8_empty_selection_noop (shuffle : List ResourceRow → List ResourceRow)
    (now : Time) (db : DB) (limit : Option Nat) (timeout_s : Nat)
    (cf : Except String CheckerModel)
    (h : _pick_resources shuffle db limit = []) :
    _run_scan_sync shuffle now db limit timeout_s cf =
      { factoryInvoked := false, probed := [], applied := none,
        applyChanged := none, db := db, ret := 0 } := by
  simp [_run_scan_sync, h]

/-- Closed instance of `C8_empty_selection_noop` on an empty store. -/
theorem C8_empty_selection_noop_witness :
    _run_scan_sync id 0 { resources := [], build_state := none } none 20
        (Except.error "unavailable") =
      { factoryInvoked := false, probed := [], applied := none,
        applyChanged := none, db := { resources := [], build_state := none },
        ret := 0 } :=
  C8_empty_selection_noop id 0 { resources := [], build_state := none } none 20
    (Except.error "unavailable") rfl

/-- C3: when the checker factory raises on a non-empty batch, no per-magnet
check runs, every target is recorded as Unknown, and the result applier is
still invoked on that full Unknown list. -/
theorem C3_checker_unavailable_degrades (shuffle : List ResourceRow → List ResourceRow)
    (now : Time) (db : DB) (limit : Option Nat) (timeout_s : Nat) (e : String)
    (h : _pick_resources shuffle db limit ≠ []) :
    _run_scan_sync shuffle now db limit timeout_s (Except.error e) =
      { factoryInvoked := true, probed := [],
        applied := some ((_pick_resources shuffle db limit).map
          (fun r => (r.1, DhtStatus.Unknown))),
        applyChanged := some (_apply_results now db
          ((_pick_resources shuffle db limit).map
            (fun r => (r.1, DhtStatus.Unknown)))).2,
        db := (_apply_results now db
          ((_pick_resources shuffle db limit).map
            (fun r => (r.1, DhtStatus.Unknown)))).1,
        ret := 0 } := by
  simp [_run_scan_sync, h]

/-- Closed instance of `C3_checker_unavailable_degrades` on a one-resource
store. -/
theorem C3_checker_unavailable_degrades_witness :
    _run_scan_sync id 0 dbW none 20 (Except.error "libtorrent not installed") =
      { factoryInvoked := true, probed := [],
        applied := some [(1, DhtStatus.Unknown)],
        applyChanged := some (_apply_results 0 dbW [(1, DhtStatus.Unknown)]).2,
        db := (_apply_results 0 dbW [(1, DhtStatus.Unknown)]).1,
        ret := 0 } :=
  C3_checker_unavailable_degrades id 0 dbW none 20 "libtorrent not installed"
    (by decide)

theorem mem_zip_map {α β : Type} (f : α → β) (l : List α) :
    ∀ pr ∈ (l.map f).zip l, pr.1 = f pr.2 := by
  induction l with
  | nil => intro pr h; simp at h
  | cons a t ih =>
    intro pr h
    rcases List.mem_cons.mp (by simpa using h) with h1 | h1
    · rw [h1]
    · exact ih pr h1

/-- C4: with an open checker session, a per-item exception is absorbed as an
Unknown verdict for that item while every other target still gets its own
verdict; the produced result list has exactly one entry per target, in
target order, and is what the applier receives and the scan returns. -/
theorem C4_per_item_isolation (shuffle : List ResourceRow → List ResourceRow)
    (now : Time) (db : DB) (limit : Option Nat) (timeout_s : Nat)
    (checker : CheckerModel)
    (h : _pick_resources shuffle db limit ≠ []) :
    ∃ rs : List (Nat × DhtStatus),
      _run_scan_sync shuffle now db limit timeout_s (Except.ok checker) =
        { factoryInvoked := true,
          probed := (_pick_resources shuffle db limit).map (fun r => r.1),
          applied := some rs,
          applyChanged := some (_apply_results now db rs).2,
          db := (_apply_results now db rs).1,
          ret := (_apply_results now db rs).2 } ∧
      rs.length = (_pick_resources shuffle db limit).length ∧
      (∀ pr ∈ rs.zip (_pick_resources shuffle db limit),
        pr.1.1 = pr.2.1 ∧
        (∀ er, checker.check pr.2.2.1 timeout_s = Except.error er →
          pr.1.2 = DhtStatus.Unknown) ∧
        (∀ p, checker.check pr.2.2.1 timeout_s = Except.ok p →
          pr.1.2 = p.status)) := by
  refine ⟨(_pick_resources shuffle db limit).map (fun r =>
    match checker.check r.2.1 timeout_s with
    | .ok probe => (r.1, probe.status)
    | .error _ => (r.1, DhtStatus.Unknown)), ?_, ?_, ?_⟩
  · simp [_run_scan_sync, h]
  · simp
  · intro pr hpr
    have heq := mem_zip_map _ _ pr hpr
    refine ⟨?_, ?_, ?_⟩
    · rw [heq]
      cases hc : checker.check pr.2.2.1 timeout_s <;> simp [hc]
    · intro er her
      rw [heq]
      simp [her]
    · intro p hp
      rw [heq]
      simp [hp]

/-- Closed instance of `C4_per_item_isolation` on a one-resource store with an
always-Active checker. -/
theorem C4_per_item_isolation_witness :
    ∃ rs : List (Nat × DhtStatus),
      _run_scan_sync id 0 dbW none 20 (Except.ok checkerW) =
        { factoryInvoked := true,
          probed := (_pick_resources id dbW none).map (fun r => r.1),
          applied := some rs,
          applyChanged := some (_apply_results 0 dbW rs).2,
          db := (_apply_results 0 dbW rs).1,
          ret := (_apply_results 0 dbW rs).2 } ∧
      rs.length = (_pick_resources id dbW none).length ∧
      (∀ pr ∈ rs.zip (_pick_resources id dbW none),
        pr.1.1 = pr.2.1 ∧
        (∀ er, checkerW.check pr.2.2.1 20 = Except.error er →
          pr.1.2 = DhtStatus.Unknown) ∧
        (∀ p, checkerW.check pr.2.2.1 20 = Except.ok p →
          pr.1.2 = p.status)) :=
  C4_per_item_isolation id 0 dbW none 20 checkerW (by decide)

/-- C1 counterexample: on a store whose one resource is Active, a scan whose
checker factory raises applies Unknown (the applier counts 1 change) yet
returns 0 to the caller — the returned value does not equal the applier's
changed count in this branch. -/
theorem C1_counterexample_return_vs_applier :
    (_run_scan_sync id 0 dbA none 20 (Except.error "libtorrent not installed")).ret
        = 0 ∧
    (_run_scan_sync id 0 dbA none 20
        (Except.error "libtorrent not installed")).applyChanged = some 1 := by
  decide

/-- C1 amended: when the factory succeeds the scan returns exactly the
applier's changed count; when the factory raises the applier still runs on
the all-Unknown list but the scan returns the literal 0, whatever the
applier counted. -/
theorem C1_amended_return_value (shuffle : List ResourceRow → List ResourceRow)
    (now : Time) (db : DB) (limit : Option Nat) (timeout_s : Nat)
    (cf : Except String CheckerModel)
    (h : _pick_resources shuffle db limit ≠ []) :
    (∀ checker, cf = Except.ok checker →
      (_run_scan_sync shuffle now db limit timeout_s cf).applyChanged =
        some (_run_scan_sync shuffle now db limit timeout_s cf).ret) ∧
    (∀ e, cf = Except.error e →
      (_run_scan_sync shuffle now db limit timeout_s cf).ret = 0 ∧
      (_run_scan_sync shuffle now db limit timeout_s cf).applyChanged =
        some (_apply_results now db ((_pick_resources shuffle db limit).map
          (fun r => (r.1, DhtStatus.Unknown)))).2) := by
  constructor
  · rintro checker rfl
    simp [_run_scan_sync, h]
  · rintro e rfl
    simp [_run_scan_sync, h]

/-- Closed instance of `C1_amended_return_value` with a succeeding factory. -/
theorem C1_amended_return_value_witness :
    (∀ checker, (Except.ok checkerW : Except String CheckerModel) = Except.ok checker →
      (_run_scan_sync id 0 dbW none 20 (Except.ok checkerW)).applyChanged =
        some (_run_scan_sync id 0 dbW none 20 (Except.ok checkerW)).ret) ∧
    (∀ e, (Except.ok checkerW : Except String CheckerModel) = Except.error e →
      (_run_scan_sync id 0 dbW none 20 (Except.ok checkerW)).ret = 0 ∧
      (_run_scan_sync id 0 dbW none 20 (Except.ok checkerW)).applyChanged =
        some (_apply_results 0 dbW ((_pick_resources id dbW none).map
          (fun r => (r.1, DhtStatus.Unknown)))).2) :=
  C1_amended_return_value id 0 dbW none 20 (Except.ok checkerW) (by decide)

/-- C10: the public sampled-scan entry point treats an explicit 0 for
`sample_size` or `timeout_s` exactly like `None`: both fall back to the
parsed environment value, itself defaulting to 20; a zero result can only
come from the environment itself, never from the caller's argument. -/
theorem C10_zero_args_fall_back (env : Env) :
    run_dht_health_scan_args (some 0) (some 0) env =
      run_dht_health_scan_args none none env ∧
    run_dht_health_scan_args (some 0) (some 0) env =
      (env.sampleSize.getD 20, env.timeoutS.getD 20) ∧
    (∀ ss ts : Option Int, (run_dht_health_scan_args ss ts env).1 = 0 →
      env.sampleSize.getD 20 = 0) ∧
    (∀ ss ts : Option Int, (run_dht_health_scan_args ss ts env).2 = 0 →
      env.timeoutS.getD 20 = 0) := by
  refine ⟨by simp [run_dht_health_scan_args, resolveOrDefault], ?_, ?_, ?_⟩
  · simp [run_dht_health_scan_args, resolveOrDefault]
  · intro ss ts hz
    cases ss with
    | none => simpa [run_dht_health_scan_args, resolveOrDefault] using hz
    | some v =>
      by_cases hv : v = 0
      · simpa [run_dht_health_scan_args, resolveOrDefault, hv] using hz
      · simp [run_dht_health_scan_args, resolveOrDefault, hv] at hz
  · intro ss ts hz
    cases ts with
    | none => simpa [run_dht_health_scan_args, resolveOrDefault] using hz
    | some v =>
      by_cases hv : v = 0
      · simpa [run_dht_health_scan_args, resolveOrDefault, hv] using hz
      · simp [run_dht_health_scan_args, resolveOrDefault, hv] at hz

/-! ## Sample selector theorems -/

/-- C7: the selector never returns a taken-down resource; with no limit it
returns all eligible resources in ascending-id order; with limit `n` it
returns at most `n` eligible resources, and all of them (up to order) when at
most `n` are eligible. -/
theorem C7_sample_selector (shuffle : List ResourceRow → List ResourceRow) (db : DB)
    (hshuffle : ∀ l : List ResourceRow, (shuffle l).Perm l) :
    (∀ limit : Option Nat, ∀ x ∈ _pick_resources shuffle db limit,
      x ∈ eligibleRows db) ∧
    (_pick_resources shuffle db none).Perm (eligibleRows db) ∧
    ((_pick_resources shuffle db none).map (fun x => x.1)).Sorted (· ≤ ·) ∧
    (∀ n : Nat, (_pick_resources shuffle db (some n)).length ≤ n) ∧
    (∀ n : Nat, (eligibleRows db).length ≤ n →
      (_pick_resources shuffle db (some n)).Perm (eligibleRows db)) := by
  have hpermNone : (_pick_resources shuffle db none).Perm (eligibleRows db) := by
    simpa [_pick_resources, eligibleRows] using
      (List.perm_insertionSort (fun a b : ResourceRow => a.id ≤ b.id)
        (db.resources.filter (fun r => r.takedown_at = none))).map
        (fun r : ResourceRow => (r.id, r.magnet_uri, r.magnet_hash, r.dht_status))
  have hmemSome : ∀ (n : Nat), ∀ x ∈ _pick_resources shuffle db (some n),
      x ∈ eligibleRows db := by
    intro n x hx
    simp only [_pick_resources, List.mem_map] at hx
    obtain ⟨r, hr, hrx⟩ := hx
    have hr1 : r ∈ shuffle (db.resources.filter (fun r => r.takedown_at = none)) :=
      List.take_subset n _ hr
    have hr2 : r ∈ db.resources.filter (fun r => r.takedown_at = none) :=
      ((hshuffle _).mem_iff).mp hr1
    exact List.mem_map.mpr ⟨r, hr2, hrx⟩
  refine ⟨?_, hpermNone, ?_, ?_, ?_⟩
  · intro limit x hx
    cases limit with
    | none => exact (hpermNone.mem_iff).mp hx
    | some n => exact hmemSome n x hx
  · have hs := List.sorted_insertionSort (fun a b : ResourceRow => a.id ≤ b.id)
      (db.resources.filter (fun r => r.takedown_at = none))
    simp only [_pick_resources, List.map_map]
    exact hs.map _ (fun a b hab => hab)
  · intro n
    simp [_pick_resources]
  · intro n hn
    have hq : (db.resources.filter (fun r => r.takedown_at = none)).length ≤ n := by
      simpa [eligibleRows] using hn
    have hlen : (shuffle (db.resources.filter (fun r => r.takedown_at = none))).length
        = (db.resources.filter (fun r => r.takedown_at = none)).length :=
      (hshuffle _).length_eq
    have htake :
        (shuffle (db.resources.filter (fun r => r.takedown_at = none))).take n =
          shuffle (db.resources.filter (fun r => r.takedown_at = none)) :=
      List.take_of_length_le (hlen ▸ hq)
    simp only [_pick_resources, htake, eligibleRows]
    exact ((hshuffle _).map _)

/-- Closed instance of `C7_sample_selector` with the identity shuffle on a
one-resource store. -/
theorem C7_sample_selector_witness :
    (∀ limit : Option Nat, ∀ x ∈ _pick_resources id dbW limit,
      x ∈ eligibleRows dbW) ∧
    (_pick_resources id dbW none).Perm (eligibleRows dbW) ∧
    ((_pick_resources id dbW none).map (fun x => x.1)).Sorted (· ≤ ·) ∧
    (∀ n : Nat, (_pick_resources id dbW (some n)).length ≤ n) ∧
    (∀ n : Nat, (eligibleRows dbW).length ≤ n →
      (_pick_resources id dbW (some n)).Perm (eligibleRows dbW)) :=
  C7_sample_selector id dbW (fun l => List.Perm.refl l)

/-! ## Concurrency gate theorems -/

/-- C9: in every state reachable by the full-scan gate, at most one full-scan
invocation is inside the lock-protected scan phase; the only step that takes
an invocation out of the waiting queue hands it the lock (with no other
holder), and the only step that completes an invocation is the release by the
lock holder — a queued invocation is never rejected or dropped. -/
theorem C9_full_scan_mutual_exclusion :
    (∀ (n : Nat) (s : GateState), GateReachable n s →
      s.count FullScanPhase.scanning ≤ 1) ∧
    (∀ s s' : GateState, GateStep s s' →
      s'.count FullScanPhase.waiting < s.count FullScanPhase.waiting →
      s.count FullScanPhase.scanning = 0 ∧
      s'.count FullScanPhase.scanning = 1) ∧
    (∀ s s' : GateState, GateStep s s' →
      s.count FullScanPhase.finished < s'.count FullScanPhase.finished →
      s.count FullScanPhase.scanning = s'.count FullScanPhase.scanning + 1) := by
  refine ⟨?_, ?_, ?_⟩
  · intro n s h
    induction h with
    | refl =>
      simp [Multiset.count_replicate]
    | tail hR hstep ih =>
      cases hstep with
      | request rest =>
        rw [Multiset.count_cons_of_ne (by decide) rest]
        rw [Multiset.count_cons_of_ne (by decide) rest] at ih
        exact ih
      | acquire rest hfree =>
        rw [Multiset.count_cons_self, Multiset.count_eq_zero_of_not_mem hfree]
      | release rest =>
        rw [Multiset.count_cons_of_ne (by decide) rest]
        rw [Multiset.count_cons_self] at ih
        omega
  · intro s s' hstep hlt
    cases hstep with
    | request rest =>
      rw [Multiset.count_cons_self, Multiset.count_cons_of_ne (by decide) rest] at hlt
      omega
    | acquire rest hfree =>
      constructor
      · rw [Multiset.count_cons_of_ne (by decide) rest,
          Multiset.count_eq_zero_of_not_mem hfree]
      · rw [Multiset.count_cons_self, Multiset.count_eq_zero_of_not_mem hfree]
    | release rest =>
      rw [Multiset.count_cons_of_ne (by decide) rest,
        Multiset.count_cons_of_ne (by decide) rest] at hlt
      omega
  · intro s s' hstep hlt
    cases hstep with
    | request rest =>
      rw [Multiset.count_cons_of_ne (by decide) rest,
        Multiset.count_cons_of_ne (by decide) rest] at hlt
      omega
    | acquire rest hfree =>
      rw [Multiset.count_cons_of_ne (by decide) rest,
        Multiset.count_cons_of_ne (by decide) rest] at hlt
      omega
    | release rest =>
      rw [Multiset.count_cons_self, Multiset.count_cons_of_ne (by decide) rest]

end Ghost
